import Mathlib

/-!
Verification of the video-converter worker (`internal/converter/task.go`).

The Go code is shallowly embedded: pure helpers (`extractNumber`, the chunk
ordering, the confirmation-message template) become Lean functions, and the
effectful parts (`mergeChunks`, `processVideo`, `Handle`) become functions from
an explicit environment (which supplies the outcomes of filesystem, process,
database and queue operations) to an explicit result: produced bytes, the final
state of the merged file, and a trace of observable effects.

Go machine integers are modelled as `Int`/`Nat`; `strconv.Atoi` overflow is
modelled with an explicit bound `2^63 - 1` (Go `int` on 64-bit platforms).
File contents are `List Nat` (byte sequences).
-/

namespace Converter

/-- `2^63 - 1`, the largest value `strconv.Atoi` accepts for a 64-bit `int`. -/
def maxInt64 : Nat := 9223372036854775807

/-- Go `filepath.Base` restricted to the slash-separated paths this program
builds: drop trailing slashes, then keep the characters after the last `/`.
(The Go corner cases for the empty path and the root path are irrelevant here:
`mergeChunks` only applies it to `inputDir/<name>` paths produced by `Glob`.) -/
def baseNameChars (l : List Char) : List Char :=
  (l.reverse.dropWhile (fun c => c = '/')).takeWhile (fun c => c ≠ '/') |>.reverse

/-- The first contiguous run of decimal digits in `s`, as matched by
`regexp.MustCompile("(\\d+)").FindString` (leftmost match, greedy): empty when
`s` has no digit. Go's `\d` matches exactly the ASCII digits `0-9`. -/
def firstDigitRun (s : List Char) : List Char :=
  match s with
  | [] => []
  | c :: rest => if c.isDigit then (c :: rest).takeWhile Char.isDigit
                 else firstDigitRun rest

/-- Numeric value of a list of decimal digit characters. -/
def digitsVal (l : List Char) : Nat :=
  l.foldl (fun a c => a * 10 + (c.toNat - '0'.toNat)) 0

/-- `strconv.Atoi` applied to a (sign-free) digit run: fails on the empty
string, and fails with `ErrRange` when the value exceeds the 64-bit `int`
range. -/
def atoiDigits (l : List Char) : Option Nat :=
  if l = [] then none
  else if digitsVal l ≤ maxInt64 then some (digitsVal l) else none

/-- `VideoConverter.extractNumber`: the first digit run of the base filename,
parsed with `strconv.Atoi`; `-1` when parsing fails (no digits, or out of the
64-bit `int` range). -/
def extractNumber (fileName : String) : Int :=
  match atoiDigits (firstDigitRun (baseNameChars fileName.data)) with
  | none => -1
  | some n => (n : Int)

/-- The sequence number as the SPEC's words describe it (for comparison with
`extractNumber`, which is translated from the code): "a numeric sequence number
extracted from each filename (first contiguous run of decimal digits in the
base filename); a filename containing no digits is assigned sequence number
−1". The spec puts no range bound on the numeric value. -/
def specSeqNum (fileName : String) : Int :=
  match firstDigitRun (baseNameChars fileName.data) with
  | [] => -1
  | l => (digitsVal l : Int)

/-- One file of the input directory, together with the outcomes the filesystem
gives this run: an `open` failure, or a failure of `output.ReadFrom(input)`
after `partialBytes` of the content were already written to the output. -/
structure ChunkFile where
  name : String
  content : List Nat
  openErr : Option String := none
  copyErr : Option String := none
  partialBytes : List Nat := []
  deriving DecidableEq, Repr

/-- The state of the input directory and of the output-file creation, i.e. the
filesystem outcomes `mergeChunks` can observe.  Per the documentation of
`filepath.Glob`, filesystem errors while reading the directory are ignored
(an unlistable or nonexistent directory yields no matches and no error); the
only possible `Glob` error is `ErrBadPattern`, which can arise when `inputDir`
itself contains malformed pattern syntax (e.g. an unclosed `[`): that case is
the `badPattern` flag. -/
structure DirState where
  badPattern : Bool := false
  listable : Bool := true
  entries : List ChunkFile
  createErr : Option String := none
  deriving DecidableEq, Repr

/-- Does a base filename match the glob pattern `*.chunk`?  (`*` matches any
possibly-empty run of non-separator characters; directory entries contain no
separator, so this is exactly a `.chunk` suffix test.) -/
def chunkMatch (name : String) : Bool :=
  ".chunk".data.isSuffixOf name.data

/-- Lexicographic-name order used by `filepath.Glob`, which returns its matches
sorted (byte order; UTF-8 byte order agrees with scalar-value order, so the
character-list order is the same relation). -/
def lexLe (a b : ChunkFile) : Prop := a.name.data ≤ b.name.data

/-- The comparison `sort.Slice` is given: order by `extractNumber`. -/
def numLe (a b : ChunkFile) : Prop := extractNumber a.name ≤ extractNumber b.name

instance : DecidableRel lexLe := fun a b => inferInstanceAs (Decidable (a.name.data ≤ b.name.data))
instance : DecidableRel numLe := fun _ _ => Int.decLe _ _
instance : IsTotal ChunkFile numLe := ⟨fun _ _ => Int.le_total _ _⟩
instance : IsTrans ChunkFile numLe := ⟨fun _ _ _ h h' => Int.le_trans h h'⟩

/-- `filepath.Glob(filepath.Join(inputDir, "*.chunk"))`: error on a malformed
pattern; otherwise the matching directory entries in sorted name order (an
unlistable directory is ignored and yields no matches). -/
def globChunks (d : DirState) : Except String (List ChunkFile) :=
  if d.badPattern then .error "syntax error in pattern"
  else if d.listable then .ok (List.insertionSort lexLe (d.entries.filter (fun c => chunkMatch c.name)))
  else .ok []

/-- `sort.Slice(chunks, ...)` with `extractNumber` comparison.  Go's sort is
unstable, so only the conclusions "permutation of the input" and
"nondecreasing in `extractNumber`" are relied on; the model fixes insertion
sort as one such order. -/
def sortChunks (l : List ChunkFile) : List ChunkFile :=
  List.insertionSort numLe l

/-- Result of a `mergeChunks` run: the error returned (if any), whether the
output file was created (`os.Create` truncates, so a created output starts
empty), and the bytes it holds afterwards. -/
structure MergeResult where
  err : Option String
  outputCreated : Bool
  outputBytes : List Nat
  deriving DecidableEq, Repr

/-- The copy loop of `mergeChunks`: for each chunk in order, `os.Open` then
`output.ReadFrom(input)`, stopping at the first failure; a copy failure leaves
the bytes written so far (plus a partial prefix) in the output. -/
def copyChunks : List ChunkFile → List Nat → MergeResult
  | [], acc => ⟨none, true, acc⟩
  | c :: rest, acc =>
    match c.openErr with
    | some e => ⟨some ("failed to read chunk file: " ++ e), true, acc⟩
    | none =>
      match c.copyErr with
      | some e => ⟨some ("failed to write chunk " ++ c.name ++ " to merged file: " ++ e),
                   true, acc ++ c.partialBytes⟩
      | none => copyChunks rest (acc ++ c.content)

/-- `VideoConverter.mergeChunks(inputDir, outputFile)`: glob, sort by
`extractNumber`, create (truncate) the output, then copy each chunk in order. -/
def mergeChunks (d : DirState) : MergeResult :=
  match globChunks d with
  | .error e => ⟨some ("failed to find chunks: " ++ e), false, []⟩
  | .ok chunks =>
    match d.createErr with
    | some e => ⟨some ("failed to create output file: " ++ e), false, []⟩
    | none => copyChunks (sortChunks chunks) []

/-- The task carried by an inbound message (`VideoTask`). -/
structure VideoTask where
  videoId : Int
  path : String
  deriving DecidableEq, Repr

/-- Little-endian decimal digits of `n`, with structural fuel (any fuel above
`n` is enough, since the argument shrinks by a factor of ten each step). -/
def natDigitsRevAux : Nat → Nat → List Char
  | 0, _ => []
  | fuel + 1, n =>
    if n < 10 then [Char.ofNat ('0'.toNat + n)]
    else Char.ofNat ('0'.toNat + n % 10) :: natDigitsRevAux fuel (n / 10)

/-- Little-endian decimal digits of `n`. -/
def natDigitsRev (n : Nat) : List Char := natDigitsRevAux (n + 1) n

/-- Decimal rendering of a natural number (most significant digit first). -/
def natToChars (n : Nat) : List Char := (natDigitsRev n).reverse

/-- `fmt.Sprintf("%d", i)` for a Go `int`: optional minus sign, then decimal
digits without leading zeros. -/
def intToChars (i : Int) : List Char :=
  if i < 0 then '-' :: natToChars i.natAbs else natToChars i.natAbs

/-- The confirmation message body built by `Handle`:
`fmt.Sprintf("{\"video_id\": %d, \"path\": \"%s\"}", task.VideoID, task.Path)`.
The path is interpolated verbatim, with no JSON escaping. -/
def confirmationMessage (id : Int) (path : String) : String :=
  "\x7b\"video_id\": " ++ String.mk (intToChars id) ++ ", \"path\": \"" ++ path ++ "\"\x7d"

/-- Observable effects of a `Handle` run, in order.  `registerError` is the
persisted error record written by `logError` (its message and underlying
detail); `publish` carries the message body and whether the broker accepted
it. -/
inductive Ev where
  | mergeCall
  | mkdirCall
  | ffmpegCall (output : String)
  | removeCall
  | ack
  | mark
  | registerError (msg : String) (details : String)
  | publish (body : String) (ok : Bool)
  deriving DecidableEq, Repr

/-- Outcomes of the external collaborators during one `Handle` run:
the result of `json.Unmarshal` on the message body, the answer of
`IsProcessed`, the filesystem state seen by `mergeChunks`, the outcomes of
`os.MkdirAll`, of the ffmpeg invocation (`CombinedOutput` returns the captured
combined output and, separately, the execution error), of `os.Remove`, of
`MarkProcessed` and of `PublishMessage`. -/
structure Env where
  parsedTask : Except String VideoTask
  isProcessed : Bool
  dir : DirState
  mkdirErr : Option String := none
  ffmpegOutput : String := ""
  ffmpegErr : Option String := none
  removeErr : Option String := none
  markErr : Option String := none
  publishErr : Option String := none

/-- Result of a `processVideo` run: its effect trace, the state of
`<path>/merged.mp4` afterwards (`some bytes` when the file exists), and the
returned error, if any. -/
structure PVOut where
  events : List Ev
  mergedFile : Option (List Nat)
  result : Option String
  deriving DecidableEq, Repr

/-- `VideoConverter.processVideo`: merge the chunks into `merged.mp4`, create
the `mpeg-dash` directory, run ffmpeg capturing its combined output, and on
success remove the merged file.  Each failure calls `logError` (which persists
an error record) and returns the error; note that on ffmpeg failure the
*recorded* message embeds the captured output, while the *returned* error is
the bare execution error. -/
def processVideo (env : Env) : PVOut :=
  let m := mergeChunks env.dir
  let merged : Option (List Nat) := if m.outputCreated then some m.outputBytes else none
  match m.err with
  | some e =>
    { events := [.mergeCall, .registerError "Failed to merge chunks" e],
      mergedFile := merged, result := some e }
  | none =>
    match env.mkdirErr with
    | some e =>
      { events := [.mergeCall, .mkdirCall, .registerError "Failed to create mpeg-dash directory" e],
        mergedFile := merged, result := some e }
    | none =>
      match env.ffmpegErr with
      | some e =>
        { events := [.mergeCall, .mkdirCall, .ffmpegCall env.ffmpegOutput,
                     .registerError ("Failed to convert to mpeg-dash, output" ++ env.ffmpegOutput) e],
          mergedFile := merged, result := some e }
      | none =>
        match env.removeErr with
        | some e =>
          { events := [.mergeCall, .mkdirCall, .ffmpegCall env.ffmpegOutput, .removeCall,
                       .registerError "Failed to remove merged file" e],
            mergedFile := merged, result := some e }
        | none =>
          { events := [.mergeCall, .mkdirCall, .ffmpegCall env.ffmpegOutput, .removeCall],
            mergedFile := none, result := none }

/-- Result of a `Handle` run: its effect trace and the state of the merged
file afterwards (`none` when this run did not leave one behind). -/
structure HandleOut where
  trace : List Ev
  mergedFile : Option (List Nat)
  deriving DecidableEq, Repr

/-- `VideoConverter.Handle`: unmarshal; if `IsProcessed` answers true,
acknowledge and return; otherwise run `processVideo`; on success persist the
processing record with `MarkProcessed`, then acknowledge, then publish the
confirmation message — the error returned by `PublishMessage` is assigned and
then dropped (the function ends). -/
def handleMessage (env : Env) : HandleOut :=
  match env.parsedTask with
  | .error e => { trace := [.registerError "Failed to unmarshal task" e], mergedFile := none }
  | .ok task =>
    if env.isProcessed then { trace := [.ack], mergedFile := none }
    else
      let pv := processVideo env
      match pv.result with
      | some e =>
        { trace := pv.events ++ [.registerError "Failed to process video" e],
          mergedFile := pv.mergedFile }
      | none =>
        match env.markErr with
        | some e =>
          { trace := pv.events ++ [.registerError "Failed to mark video as processed" e],
            mergedFile := pv.mergedFile }
        | none =>
          { trace := pv.events ++
              [.mark, .ack,
               .publish (confirmationMessage task.videoId task.path) env.publishErr.isNone],
            mergedFile := pv.mergedFile }

/-! ### A JSON checker for the confirmation body

`parseConfirmation` judges whether a byte string is a valid JSON document
denoting exactly the object `{"video_id": <int>, "path": <string>}` (either
member order), and if so returns the two field values.  String literals
support the full JSON escape repertoire (including `\uXXXX` with surrogate
pairs); numbers are parsed as optionally-signed integers, which covers every
body the worker can emit.  This is the formalisation of "valid JSON encoding
of `{video_id, path}`" used below. -/

/-- Does `needle` occur contiguously inside `hay`? -/
def subOccurs (needle : List Char) : List Char → Bool
  | [] => needle.isEmpty
  | c :: t => needle.isPrefixOf (c :: t) || subOccurs needle t

/-- Skip JSON insignificant whitespace. -/
def skipWs : List Char → List Char
  | [] => []
  | c :: r => if c = ' ' ∨ c = '\t' ∨ c = '\n' ∨ c = '\r' then skipWs r else c :: r

/-- Value of one hexadecimal digit. -/
def hexVal (c : Char) : Option Nat :=
  if '0' ≤ c ∧ c ≤ '9' then some (c.toNat - '0'.toNat)
  else if 'a' ≤ c ∧ c ≤ 'f' then some (c.toNat - 'a'.toNat + 10)
  else if 'A' ≤ c ∧ c ≤ 'F' then some (c.toNat - 'A'.toNat + 10)
  else none

/-- The single-character JSON escapes. -/
def simpleEsc (c : Char) : Option Char :=
  if c = '"' then some '"'
  else if c = '\\' then some '\\'
  else if c = '/' then some '/'
  else if c = 'b' then some (Char.ofNat 8)
  else if c = 'f' then some (Char.ofNat 12)
  else if c = 'n' then some '\n'
  else if c = 'r' then some '\r'
  else if c = 't' then some '\t'
  else none

/-- Scan the inside of a JSON string literal (the opening quote already
consumed): returns the decoded characters and the remainder after the closing
quote.  `\uXXXX` escapes decode a scalar value; a high surrogate must be
followed by a low surrogate (the pair decodes to one character); a lone
surrogate is rejected. -/
def strScan : List Char → Option (List Char × List Char)
  | [] => none
  | '"' :: r => some ([], r)
  | '\\' :: 'u' :: h1 :: h2 :: h3 :: h4 :: r =>
    (match hexVal h1, hexVal h2, hexVal h3, hexVal h4 with
     | some a, some b, some c, some d =>
       let n := ((a * 16 + b) * 16 + c) * 16 + d
       if 0xD800 ≤ n ∧ n ≤ 0xDBFF then
         match r with
         | '\\' :: 'u' :: g1 :: g2 :: g3 :: g4 :: r2 =>
           (match hexVal g1, hexVal g2, hexVal g3, hexVal g4 with
            | some a2, some b2, some c2, some d2 =>
              let m := ((a2 * 16 + b2) * 16 + c2) * 16 + d2
              if 0xDC00 ≤ m ∧ m ≤ 0xDFFF then
                (strScan r2).map (fun p =>
                  (Char.ofNat (0x10000 + (n - 0xD800) * 0x400 + (m - 0xDC00)) :: p.1, p.2))
              else none
            | _, _, _, _ => none)
         | _ => none
       else if 0xDC00 ≤ n ∧ n ≤ 0xDFFF then none
       else (strScan r).map (fun p => (Char.ofNat n :: p.1, p.2))
     | _, _, _, _ => none)
  | '\\' :: e :: r =>
    (match simpleEsc e with
     | some d => (strScan r).map (fun p => (d :: p.1, p.2))
     | none => none)
  | c :: r => (strScan r).map (fun p => (c :: p.1, p.2))

/-- Parse a JSON string literal including its opening quote. -/
def parseStringLit (l : List Char) : Option (List Char × List Char) :=
  match l with
  | '"' :: r => strScan r
  | _ => none

/-- Parse an optionally-signed decimal integer (the only number shape the
worker's bodies can contain). -/
def parseNum (l : List Char) : Option (Int × List Char) :=
  match l with
  | '-' :: r =>
    (let ds := r.takeWhile Char.isDigit
     if ds.isEmpty then none
     else some (-(digitsVal ds : Int), r.dropWhile Char.isDigit))
  | _ =>
    let ds := l.takeWhile Char.isDigit
    if ds.isEmpty then none
    else some ((digitsVal ds : Int), l.dropWhile Char.isDigit)

/-- A JSON value of the two shapes the target object can contain. -/
inductive JVal where
  | num (n : Int)
  | str (s : List Char)
  deriving DecidableEq, Repr

/-- Parse a member value: a string literal or an integer. -/
def parseVal (l : List Char) : Option (JVal × List Char) :=
  match l with
  | '"' :: r => (strScan r).map (fun p => (.str p.1, p.2))
  | _ => (parseNum l).map (fun p => (.num p.1, p.2))

/-- Parse one object member `"key" : value` (with surrounding whitespace). -/
def parseMember (l : List Char) : Option ((List Char × JVal) × List Char) :=
  match parseStringLit (skipWs l) with
  | none => none
  | some (k, r1) =>
    match skipWs r1 with
    | ':' :: r2 =>
      match parseVal (skipWs r2) with
      | none => none
      | some (v, r3) => some ((k, v), r3)
    | _ => none

/-- Do two members form exactly the object `{"video_id": id, "path": path}`
(either order)? -/
def matchTarget (m1 m2 : List Char × JVal) : Option (Int × String) :=
  match m1, m2 with
  | (k1, .num n), (k2, .str s) =>
    if k1 = "video_id".data ∧ k2 = "path".data then some (n, String.mk s) else none
  | (k1, .str s), (k2, .num n) =>
    if k1 = "path".data ∧ k2 = "video_id".data then some (n, String.mk s) else none
  | _, _ => none

/-- Is `s` a valid JSON document denoting exactly the object
`{"video_id": <int>, "path": <string>}`?  Returns the field values if so. -/
def parseConfirmation (s : String) : Option (Int × String) :=
  match skipWs s.data with
  | '\x7b' :: r =>
    (match parseMember r with
     | none => none
     | some (m1, r1) =>
       match skipWs r1 with
       | ',' :: r2 =>
         (match parseMember r2 with
          | none => none
          | some (m2, r3) =>
            match skipWs r3 with
            | '\x7d' :: r4 => if skipWs r4 = [] then matchTarget m1 m2 else none
            | _ => none)
       | _ => none)
  | _ => none

/-! ### Concrete fixtures used by counterexamples and witnesses -/

/-- The ordering the SPEC's words describe for C2: compare by `specSeqNum`
(the unbounded numeric value of the first digit run, −1 when there are no
digits). -/
def specLe (a b : ChunkFile) : Prop := specSeqNum a.name ≤ specSeqNum b.name

instance : DecidableRel specLe := fun _ _ => Int.decLe _ _

/-- Two chunks for the spec's own merge example (`c_0`="AA", `c_1`="BB"). -/
def dMergeEx : DirState :=
  { entries := [⟨"c_1.chunk", [66, 66], none, none, []⟩,
                ⟨"c_0.chunk", [65, 65], none, none, []⟩] }

/-- A chunk whose sequence number is 2. -/
def chunkA : ChunkFile := ⟨"part_2.chunk", [1], none, none, []⟩

/-- A chunk whose base name carries a digit run whose numeric value `10^19`
exceeds the 64-bit `int` range, so `strconv.Atoi` fails on it. -/
def chunkB : ChunkFile := ⟨"part_10000000000000000000.chunk", [2], none, none, []⟩

/-- The spec's `part_1` / `part_2` / `part_10` example files. -/
def part1 : ChunkFile := ⟨"part_1.chunk", [1], none, none, []⟩

/-- See `part1`. -/
def part2 : ChunkFile := ⟨"part_2.chunk", [2], none, none, []⟩

/-- See `part1`. -/
def part10 : ChunkFile := ⟨"part_10.chunk", [10], none, none, []⟩

/-- An input directory that cannot be listed (nonexistent or unreadable). -/
def dUnlist : DirState := { listable := false, entries := [] }

/-- A directory whose second chunk fails partway through the copy, after one
byte of it was already written. -/
def dPartial : DirState :=
  { entries := [⟨"a.chunk", [1, 2], none, none, []⟩,
                ⟨"b.chunk", [9, 9], none, some "disk full", [3]⟩] }

/-- A listable directory containing no `*.chunk` file. -/
def dNoMatch : DirState := { entries := [⟨"notes.txt", [7], none, none, []⟩] }

/-- A directory with a chunk that has no digits in its name, next to a
numbered chunk. -/
def dNoDigit : DirState :=
  { entries := [⟨"part_1.chunk", [4], none, none, []⟩,
                ⟨"noseq.chunk", [5], none, none, []⟩] }

/-- The example task of the spec. -/
def taskEx : VideoTask := ⟨42, "/data/42"⟩

/-- A run whose video was already processed. -/
def envDone : Env := { parsedTask := .ok taskEx, isProcessed := true, dir := { entries := [] } }

/-- A fully successful run over the example directory. -/
def envOk : Env := { parsedTask := .ok taskEx, isProcessed := false, dir := dMergeEx }

/-- A run where everything succeeds except `MarkProcessed`. -/
def envMarkFail : Env :=
  { parsedTask := .ok taskEx, isProcessed := false, dir := dMergeEx, markErr := some "db down" }

/-- A run whose ffmpeg invocation fails with combined output "boom" and
execution error "exit status 1". -/
def envFF : Env :=
  { parsedTask := .ok ⟨7, "/data/7"⟩, isProcessed := false,
    dir := { entries := [⟨"0.chunk", [1], none, none, []⟩] },
    ffmpegOutput := "boom", ffmpegErr := some "exit status 1" }

/-- A run where everything succeeds except publishing the confirmation. -/
def envPubFail : Env :=
  { parsedTask := .ok taskEx, isProcessed := false, dir := dMergeEx,
    publishErr := some "broker down" }

/-- A successful run whose task path contains a double quote. -/
def envQuote : Env :=
  { parsedTask := .ok ⟨9, "/da\"ta"⟩, isProcessed := false, dir := dMergeEx }

/-! ### Lemmas about the chunk merger -/

theorem copyChunks_created : ∀ (l : List ChunkFile) (acc : List Nat),
    (copyChunks l acc).outputCreated = true
  | [], _ => rfl
  | c :: rest, acc => by
    obtain ⟨name, content, oErr, cErr, pB⟩ := c
    cases oErr with
    | some e => rfl
    | none =>
      cases cErr with
      | some e => rfl
      | none => exact copyChunks_created rest _

theorem copyChunks_success : ∀ (l : List ChunkFile) (acc : List Nat),
    (copyChunks l acc).err = none →
    copyChunks l acc = ⟨none, true, acc ++ (l.map (fun c => c.content)).flatten⟩
  | [], acc => by intro _; simp [copyChunks]
  | c :: rest, acc => by
    intro h
    obtain ⟨name, content, oErr, cErr, pB⟩ := c
    cases oErr with
    | some e => simp [copyChunks] at h
    | none =>
      cases cErr with
      | some e => simp [copyChunks] at h
      | none =>
        simp only [copyChunks] at h ⊢
        rw [copyChunks_success rest (acc ++ content) h]
        simp

theorem copyChunks_clean : ∀ (l : List ChunkFile) (acc : List Nat),
    (copyChunks l acc).err = none →
    ∀ c ∈ l, c.openErr = none ∧ c.copyErr = none
  | [], _ => by intro _ c hc; simp at hc
  | c :: rest, acc => by
    intro h c' hc'
    obtain ⟨name, content, oErr, cErr, pB⟩ := c
    cases oErr with
    | some e => simp [copyChunks] at h
    | none =>
      cases cErr with
      | some e => simp [copyChunks] at h
      | none =>
        simp only [copyChunks] at h
        rcases List.mem_cons.mp hc' with rfl | hm
        · exact ⟨rfl, rfl⟩
        · exact copyChunks_clean rest (acc ++ content) h c' hm

theorem copyChunks_clean_none : ∀ (l : List ChunkFile) (acc : List Nat),
    (∀ c ∈ l, c.openErr = none ∧ c.copyErr = none) →
    (copyChunks l acc).err = none
  | [], _ => by intro _; rfl
  | c :: rest, acc => by
    intro h
    obtain ⟨ho, hc⟩ := h c (List.mem_cons_self ..)
    obtain ⟨name, content, oErr, cErr, pB⟩ := c
    simp only at ho hc
    subst ho; subst hc
    simp only [copyChunks]
    exact copyChunks_clean_none rest _ (fun c' hm => h c' (List.mem_cons_of_mem _ hm))

theorem mergeChunks_clean_success (d : DirState) (h1 : d.badPattern = false)
    (h2 : d.createErr = none)
    (h3 : ∀ c ∈ d.entries, c.openErr = none ∧ c.copyErr = none) :
    (mergeChunks d).err = none := by
  unfold mergeChunks globChunks
  rw [h1, h2]
  simp only [Bool.false_eq_true, if_false]
  cases hl : d.listable with
  | true =>
    simp only [if_true]
    apply copyChunks_clean_none
    intro c hm
    exact h3 c (List.mem_filter.mp ((List.mem_insertionSort lexLe).mp ((List.mem_insertionSort numLe).mp hm))).1
  | false =>
    simp only [Bool.false_eq_true, if_false]
    rfl

theorem extractNumber_ge (s : String) : -1 ≤ extractNumber s := by
  unfold extractNumber
  cases atoiDigits (firstDigitRun (baseNameChars s.data)) with
  | none => exact le_refl _
  | some n => dsimp only; omega

theorem firstDigitRun_eq_nil (l : List Char) (h : ∀ c ∈ l, c.isDigit = false) :
    firstDigitRun l = [] := by
  induction l with
  | nil => rfl
  | cons c rest ih =>
    unfold firstDigitRun
    rw [h c (List.mem_cons_self ..)]
    simp only [Bool.false_eq_true, if_false]
    exact ih (fun c' hm => h c' (List.mem_cons_of_mem _ hm))

theorem atoiDigits_ok (l : List Char) (h : l ≠ []) (hv : digitsVal l ≤ maxInt64) :
    atoiDigits l = some (digitsVal l) := by
  unfold atoiDigits
  rw [if_neg h, if_pos hv]

theorem atoiDigits_range (l : List Char) (hv : maxInt64 < digitsVal l) :
    atoiDigits l = none := by
  unfold atoiDigits
  rw [if_neg (by rintro rfl; simp [digitsVal] at hv), if_neg (by omega)]

theorem extractNumber_eq_spec (s : String) :
    (specSeqNum s ≤ (maxInt64 : Int) → extractNumber s = specSeqNum s) ∧
    ((maxInt64 : Int) < specSeqNum s → extractNumber s = -1) := by
  unfold extractNumber specSeqNum
  generalize firstDigitRun (baseNameChars s.data) = l
  cases l with
  | nil => exact ⟨fun _ => rfl, fun h2 => absurd h2 (by decide)⟩
  | cons c t =>
    by_cases hv : digitsVal (c :: t) ≤ maxInt64
    · rw [atoiDigits_ok _ (by simp) hv]
      exact ⟨fun _ => rfl, fun h2 => by
        exfalso
        have h3 : (maxInt64 : Int) < (digitsVal (c :: t) : Int) := h2
        omega⟩
    · rw [atoiDigits_range _ (by omega)]
      exact ⟨fun h2 => by
        exfalso
        have h3 : ((digitsVal (c :: t) : Nat) : Int) ≤ (maxInt64 : Int) := h2
        omega, fun _ => rfl⟩

/-- C1: whenever `mergeChunks` succeeds, the bytes of the output file are the
concatenation of the matched chunks' contents, each appended in full and in
sequence, taken in an order that is a permutation of the glob result sorted by
(nondecreasing) extracted sequence number. -/
theorem mergeChunks_success_concat (d : DirState) (h : (mergeChunks d).err = none) :
    ∃ chunks, globChunks d = .ok chunks ∧
      mergeChunks d = ⟨none, true, ((sortChunks chunks).map (fun c => c.content)).flatten⟩ ∧
      (sortChunks chunks).Perm chunks ∧
      List.Sorted numLe (sortChunks chunks) := by
  unfold mergeChunks at h ⊢
  cases hg : globChunks d with
  | error e => rw [hg] at h; simp at h
  | ok chunks =>
    rw [hg] at h
    cases hc : d.createErr with
    | some e => rw [hc] at h; simp at h
    | none =>
      rw [hc] at h
      dsimp only at h ⊢
      refine ⟨chunks, rfl, ?_, List.perm_insertionSort _ _, List.sorted_insertionSort _ _⟩
      rw [copyChunks_success _ [] h]
      simp [sortChunks]

/-- C1 witness: the spec's own example, chunks `c_0` = "AA" and `c_1` = "BB"
merge to "AABB". -/
theorem mergeChunks_success_concat_witness :
    (mergeChunks dMergeEx).err = none ∧
    (∃ chunks, globChunks dMergeEx = .ok chunks ∧
      mergeChunks dMergeEx = ⟨none, true, ((sortChunks chunks).map (fun c => c.content)).flatten⟩ ∧
      (sortChunks chunks).Perm chunks ∧
      List.Sorted numLe (sortChunks chunks)) ∧
    (mergeChunks dMergeEx).outputBytes = [65, 65, 66, 66] :=
  ⟨by decide, mergeChunks_success_concat dMergeEx (by decide), by decide⟩

/-- C2 counterexample: the claim "orders by the numeric value of the first
digit run" fails for a digit run whose value `10^19` exceeds the 64-bit `int`
range: `strconv.Atoi` fails, `extractNumber` yields −1, and the file sorts
*first* although its numeric value `10^19` is the largest. -/
theorem sortChunks_not_spec_numeric :
    sortChunks [chunkA, chunkB] = [chunkB, chunkA] ∧
    specSeqNum chunkA.name = 2 ∧
    specSeqNum chunkB.name = 10000000000000000000 ∧
    extractNumber chunkB.name = -1 ∧
    ¬ List.Sorted specLe (sortChunks [chunkA, chunkB]) := by
  refine ⟨by decide, by decide, by decide, by decide, ?_⟩
  intro hs
  rw [(by decide : sortChunks [chunkA, chunkB] = [chunkB, chunkA])] at hs
  have := List.rel_of_sorted_cons hs chunkA (List.mem_singleton_self _)
  revert this
  decide

/-- C2 amended: the merge orders chunks by `extractNumber` — the numeric value
of the first contiguous digit run of the base filename when that value fits a
signed 64-bit integer, and −1 otherwise (no digits, or out of range) — not
lexicographically: `part_1`, `part_2`, `part_10` order as 1, 2, 10 although
lexicographic order would put `part_10` before `part_2`. -/
theorem sortChunks_by_extractNumber :
    (∀ l : List ChunkFile, (sortChunks l).Perm l ∧ List.Sorted numLe (sortChunks l)) ∧
    (∀ s : String,
      (specSeqNum s ≤ (maxInt64 : Int) → extractNumber s = specSeqNum s) ∧
      ((maxInt64 : Int) < specSeqNum s → extractNumber s = -1)) ∧
    sortChunks [part1, part2, part10] = [part1, part2, part10] ∧
    List.insertionSort lexLe [part1, part2, part10] = [part1, part10, part2] :=
  ⟨fun l => ⟨List.perm_insertionSort _ _, List.sorted_insertionSort _ _⟩,
   extractNumber_eq_spec, by decide, by decide⟩

/-- C2 amended witness: instantiation at `part_10.chunk` and a two-element
list, with the inner hypotheses discharged. -/
theorem sortChunks_by_extractNumber_witness :
    (sortChunks [part10, part2]).Perm [part10, part2] ∧
    extractNumber "part_10.chunk" = specSeqNum "part_10.chunk" :=
  ⟨(sortChunks_by_extractNumber.1 [part10, part2]).1,
   (sortChunks_by_extractNumber.2.1 "part_10.chunk").1 (by decide)⟩

/-- C3: a chunk whose base filename has no decimal digit gets sequence number
−1; in the sorted merge order nothing with a non-negative (indeed, any other)
sequence number precedes it; and such a file is not an error: a merge over a
clean directory containing it still succeeds. -/
theorem noDigit_sorts_first (name : String)
    (h : ∀ c ∈ baseNameChars name.data, c.isDigit = false) :
    extractNumber name = -1 ∧
    (∀ (l xs ys : List ChunkFile) (c : ChunkFile),
      sortChunks l = xs ++ c :: ys → c.name = name →
      ∀ x ∈ xs, extractNumber x.name = -1) ∧
    (∀ d : DirState, d.badPattern = false → d.createErr = none →
      (∀ c ∈ d.entries, c.openErr = none ∧ c.copyErr = none) →
      (mergeChunks d).err = none) := by
  have hx : extractNumber name = -1 := by
    unfold extractNumber
    rw [firstDigitRun_eq_nil _ h]
    rfl
  refine ⟨hx, ?_, fun d h1 h2 h3 => mergeChunks_clean_success d h1 h2 h3⟩
  intro l xs ys c hsplit hcname x hmem
  have hs : List.Sorted numLe (sortChunks l) := List.sorted_insertionSort _ _
  rw [hsplit] at hs
  have hle : numLe x c :=
    (List.pairwise_append.mp hs).2.2 x hmem c (List.mem_cons_self ..)
  have h1 : extractNumber x.name ≤ -1 := by
    have : extractNumber c.name = -1 := by rw [hcname]; exact hx
    unfold numLe at hle
    omega
  have h2 := extractNumber_ge x.name
  omega

/-- C3 witness: `noseq.chunk` gets −1, sorts ahead of `part_1.chunk`, and the
merge over the directory containing both succeeds. -/
theorem noDigit_sorts_first_witness :
    extractNumber "noseq.chunk" = -1 ∧
    (∀ x ∈ ([] : List ChunkFile), extractNumber x.name = -1) ∧
    (mergeChunks dNoDigit).err = none := by
  obtain ⟨h1, h2, h3⟩ := noDigit_sorts_first "noseq.chunk" (by decide)
  refine ⟨h1, ?_, h3 dNoDigit (by decide) (by decide) (by decide)⟩
  exact h2 [⟨"part_1.chunk", [4], none, none, []⟩, ⟨"noseq.chunk", [5], none, none, []⟩]
    [] [⟨"part_1.chunk", [4], none, none, []⟩] ⟨"noseq.chunk", [5], none, none, []⟩
    (by decide) rfl

/-- C7 counterexample: an unlistable (e.g. nonexistent) input directory is NOT
reported as a discovery error — `filepath.Glob` ignores filesystem errors — so
`mergeChunks` succeeds and produces an empty output, contradicting the claim
that it "fails with a discovery error whenever the input directory cannot be
listed". -/
theorem mergeChunks_unlistable_no_error :
    mergeChunks dUnlist = ⟨none, true, []⟩ ∧ (mergeChunks dUnlist).err = none := by
  constructor <;> decide

/-- C7 amended: a discovery error occurs only for a malformed glob pattern; an
unlistable directory silently yields an empty (but created) output; a failure
to create the output is reported with nothing written; if any globbed chunk
cannot be opened or copied the merge fails after the output file was already
created, leaving whatever bytes were copied so far — as the concrete
`dPartial` run shows, where the output is left holding three bytes. -/
theorem mergeChunks_error_cases (d : DirState) :
    (d.badPattern = true →
      mergeChunks d = ⟨some "failed to find chunks: syntax error in pattern", false, []⟩) ∧
    (∀ e, d.badPattern = false → d.createErr = some e →
      mergeChunks d = ⟨some ("failed to create output file: " ++ e), false, []⟩) ∧
    (d.badPattern = false → d.listable = false → d.createErr = none →
      mergeChunks d = ⟨none, true, []⟩) ∧
    (∀ chunks, globChunks d = .ok chunks → d.createErr = none →
      (∃ c ∈ chunks, c.openErr ≠ none ∨ c.copyErr ≠ none) →
      (mergeChunks d).err ≠ none ∧ (mergeChunks d).outputCreated = true) ∧
    mergeChunks dPartial =
      ⟨some "failed to write chunk b.chunk to merged file: disk full", true, [1, 2, 3]⟩ := by
  refine ⟨?_, ?_, ?_, ?_, by decide⟩
  · intro hb
    unfold mergeChunks globChunks
    rw [hb]
    rfl
  · intro e hb hc
    unfold mergeChunks globChunks
    rw [hb, hc]
    cases hl : d.listable <;> simp
  · intro hb hl hc
    unfold mergeChunks globChunks
    rw [hb, hl, hc]
    rfl
  · intro chunks hg hc hfail
    unfold mergeChunks
    rw [hg, hc]
    dsimp only
    constructor
    · intro hnone
      obtain ⟨c, hm, hbad⟩ := hfail
      have hclean := copyChunks_clean _ [] hnone c ((List.mem_insertionSort numLe).mpr hm)
      rcases hbad with hb | hb
      · exact hb hclean.1
      · exact hb hclean.2
    · exact copyChunks_created _ _

/-- C7 amended witness: the `dPartial` directory instantiates the
chunk-failure clause: the merge errors and the created output is left
partially written. -/
theorem mergeChunks_error_cases_witness :
    (mergeChunks dPartial).err ≠ none ∧ (mergeChunks dPartial).outputCreated = true :=
  (mergeChunks_error_cases dPartial).2.2.2.1
    [⟨"a.chunk", [1, 2], none, none, []⟩, ⟨"b.chunk", [9, 9], none, some "disk full", [3]⟩]
    rfl rfl
    ⟨⟨"b.chunk", [9, 9], none, some "disk full", [3]⟩, by decide, by decide⟩

/-- C8: when the `*.chunk` glob matches nothing — no matching entry, or an
unlistable/nonexistent directory — `mergeChunks` succeeds (provided the output
itself can be created) and the output file is created empty; nothing is
reported as an error. -/
theorem mergeChunks_empty_glob (d : DirState) (h1 : d.badPattern = false)
    (h2 : d.createErr = none)
    (h3 : d.entries.filter (fun c => chunkMatch c.name) = [] ∨ d.listable = false) :
    mergeChunks d = ⟨none, true, []⟩ := by
  unfold mergeChunks globChunks
  rw [h1, h2]
  cases hl : d.listable with
  | false => rfl
  | true =>
    rcases h3 with h3 | h3
    · rw [h3]
      rfl
    · rw [h3] at hl
      simp at hl

/-- C8 witness: a listable directory whose only file does not match
`*.chunk`, and an unlistable directory, both merge to an empty output. -/
theorem mergeChunks_empty_glob_witness :
    mergeChunks dNoMatch = ⟨none, true, []⟩ ∧ mergeChunks dUnlist = ⟨none, true, []⟩ :=
  ⟨mergeChunks_empty_glob dNoMatch (by decide) (by decide) (Or.inl (by decide)),
   mergeChunks_empty_glob dUnlist (by decide) (by decide) (Or.inr (by decide))⟩

/-! ### Lemmas about the task handler -/

theorem mergeChunks_created (d : DirState) (h : (mergeChunks d).err = none) :
    (mergeChunks d).outputCreated = true := by
  unfold mergeChunks at h ⊢
  cases hg : globChunks d with
  | error e => rw [hg] at h; simp at h
  | ok chunks =>
    rw [hg] at h
    cases hc : d.createErr with
    | some e => rw [hc] at h; simp at h
    | none =>
      dsimp only
      exact copyChunks_created _ _

theorem processVideo_success (env : Env) (h : (processVideo env).result = none) :
    (processVideo env).events =
      [.mergeCall, .mkdirCall, .ffmpegCall env.ffmpegOutput, .removeCall] ∧
    (processVideo env).mergedFile = none := by
  unfold processVideo at h ⊢
  dsimp only at h ⊢
  cases hme : (mergeChunks env.dir).err with
  | some e => rw [hme] at h; simp at h
  | none =>
    rw [hme] at h
    cases hmk : env.mkdirErr with
    | some e => rw [hmk] at h; simp at h
    | none =>
      rw [hmk] at h
      cases hff : env.ffmpegErr with
      | some e => rw [hff] at h; simp at h
      | none =>
        rw [hff] at h
        cases hrm : env.removeErr with
        | some e => rw [hrm] at h; simp at h
        | none => exact ⟨rfl, rfl⟩

theorem handle_success_eq (env : Env) (t : VideoTask)
    (h1 : env.parsedTask = .ok t) (h2 : env.isProcessed = false)
    (h3 : (processVideo env).result = none) (h4 : env.markErr = none) :
    handleMessage env =
      ⟨[.mergeCall, .mkdirCall, .ffmpegCall env.ffmpegOutput, .removeCall, .mark, .ack,
        .publish (confirmationMessage t.videoId t.path) env.publishErr.isNone], none⟩ := by
  obtain ⟨hev, hmf⟩ := processVideo_success env h3
  unfold handleMessage
  rw [h1]
  dsimp only
  rw [h2]
  simp only [Bool.false_eq_true, if_false]
  rw [h3]
  dsimp only
  rw [h4]
  dsimp only
  rw [hev, hmf]
  rfl

theorem isPrefixOf_self (l : List Char) : l.isPrefixOf l = true := by
  induction l with
  | nil => rfl
  | cons c t ih => simp [List.isPrefixOf, ih]

theorem subOccurs_append_self (pre suf : List Char) : subOccurs suf (pre ++ suf) = true := by
  induction pre with
  | nil =>
    cases suf with
    | nil => rfl
    | cons c t =>
      show subOccurs (c :: t) (c :: t) = true
      unfold subOccurs
      rw [isPrefixOf_self]
      simp
  | cons c pre' ih =>
    show subOccurs suf (c :: (pre' ++ suf)) = true
    unfold subOccurs
    rw [ih]
    simp

/-- C4: when a processing record already exists for the video, `Handle`
acknowledges and returns: the whole run is the single `ack` effect — no
filesystem work, no `MarkProcessed`, no confirmation, no processing. -/
theorem handle_already_processed (env : Env) (t : VideoTask)
    (h1 : env.parsedTask = .ok t) (h2 : env.isProcessed = true) :
    handleMessage env = ⟨[.ack], none⟩ ∧
    (∀ e ∈ (handleMessage env).trace, e = Ev.ack) ∧
    Ev.mergeCall ∉ (handleMessage env).trace ∧
    Ev.mkdirCall ∉ (handleMessage env).trace ∧
    Ev.mark ∉ (handleMessage env).trace ∧
    (∀ b ok, Ev.publish b ok ∉ (handleMessage env).trace) := by
  have hh : handleMessage env = ⟨[.ack], none⟩ := by
    unfold handleMessage
    rw [h1]
    dsimp only
    rw [h2]
    simp
  refine ⟨hh, ?_, ?_, ?_, ?_, ?_⟩ <;> rw [hh] <;> simp

/-- C4 witness: the already-processed example run. -/
theorem handle_already_processed_witness :
    handleMessage envDone = ⟨[Ev.ack], none⟩ ∧
    Ev.mergeCall ∉ (handleMessage envDone).trace :=
  ⟨(handle_already_processed envDone taskEx rfl rfl).1,
   (handle_already_processed envDone taskEx rfl rfl).2.2.1⟩

/-- C5: in a run whose processing succeeds, `MarkProcessed` happens strictly
before the acknowledgment, which happens strictly before the confirmation is
published (the trace is exactly processing, then mark, then ack, then
publish); if `MarkProcessed` fails, the failure is logged and recorded and
both the acknowledgment and the confirmation are withheld. -/
theorem mark_before_ack_and_confirm (env : Env) (t : VideoTask)
    (h1 : env.parsedTask = .ok t) (h2 : env.isProcessed = false)
    (h3 : (processVideo env).result = none) :
    (env.markErr = none →
      handleMessage env =
        ⟨[.mergeCall, .mkdirCall, .ffmpegCall env.ffmpegOutput, .removeCall, .mark, .ack,
          .publish (confirmationMessage t.videoId t.path) env.publishErr.isNone], none⟩) ∧
    (∀ e, env.markErr = some e →
      handleMessage env =
        ⟨[.mergeCall, .mkdirCall, .ffmpegCall env.ffmpegOutput, .removeCall,
          .registerError "Failed to mark video as processed" e], none⟩ ∧
      Ev.ack ∉ (handleMessage env).trace ∧
      Ev.mark ∉ (handleMessage env).trace ∧
      (∀ b ok, Ev.publish b ok ∉ (handleMessage env).trace)) := by
  obtain ⟨hev, hmf⟩ := processVideo_success env h3
  constructor
  · intro hmk
    exact handle_success_eq env t h1 h2 h3 hmk
  · intro e hmk
    have hh : handleMessage env =
        ⟨[.mergeCall, .mkdirCall, .ffmpegCall env.ffmpegOutput, .removeCall,
          .registerError "Failed to mark video as processed" e], none⟩ := by
      unfold handleMessage
      rw [h1]
      dsimp only
      rw [h2]
      simp only [Bool.false_eq_true, if_false]
      rw [h3]
      dsimp only
      rw [hmk]
      dsimp only
      rw [hev, hmf]
      rfl
    refine ⟨hh, ?_, ?_, ?_⟩ <;> rw [hh] <;> simp

/-- C5 witness: the fully successful example run, and the mark-failure run in
which no acknowledgment appears. -/
theorem mark_before_ack_and_confirm_witness :
    handleMessage envOk =
      ⟨[.mergeCall, .mkdirCall, .ffmpegCall "", .removeCall, .mark, .ack,
        .publish (confirmationMessage 42 "/data/42") true], none⟩ ∧
    Ev.ack ∉ (handleMessage envMarkFail).trace :=
  ⟨(mark_before_ack_and_confirm envOk taskEx rfl rfl (by decide)).1 rfl,
   ((mark_before_ack_and_confirm envMarkFail taskEx rfl rfl (by decide)).2 "db down" rfl).2.1⟩

/-- C6 counterexample: the error `processVideo` propagates on a transcoder
failure is the bare execution error (here "exit status 1"); the captured
combined output ("boom") is *not* part of it — it only reaches the error
record written at the failure site. -/
theorem ffmpeg_error_lacks_output :
    (processVideo envFF).result = some "exit status 1" ∧
    subOccurs "boom".data "exit status 1".data = false := by
  constructor <;> decide

/-- C6 amended: on a transcoder failure the merged file is left present (with
the merged bytes), no processing record is written, the message is not
acknowledged, no confirmation is emitted, and error records are written — the
one written at the failure site embeds the captured combined output, while
the propagated error is the bare execution error. -/
theorem ffmpeg_failure_behavior (env : Env) (t : VideoTask) (e : String)
    (h1 : env.parsedTask = .ok t) (h2 : env.isProcessed = false)
    (h3 : (mergeChunks env.dir).err = none) (h4 : env.mkdirErr = none)
    (h5 : env.ffmpegErr = some e) :
    (processVideo env).result = some e ∧
    handleMessage env =
      ⟨[.mergeCall, .mkdirCall, .ffmpegCall env.ffmpegOutput,
        .registerError ("Failed to convert to mpeg-dash, output" ++ env.ffmpegOutput) e,
        .registerError "Failed to process video" e],
       some (mergeChunks env.dir).outputBytes⟩ ∧
    subOccurs env.ffmpegOutput.data
      ("Failed to convert to mpeg-dash, output" ++ env.ffmpegOutput).data = true ∧
    Ev.ack ∉ (handleMessage env).trace ∧
    Ev.mark ∉ (handleMessage env).trace ∧
    (∀ b ok, Ev.publish b ok ∉ (handleMessage env).trace) := by
  have hpv : processVideo env =
      ⟨[.mergeCall, .mkdirCall, .ffmpegCall env.ffmpegOutput,
        .registerError ("Failed to convert to mpeg-dash, output" ++ env.ffmpegOutput) e],
       some (mergeChunks env.dir).outputBytes, some e⟩ := by
    unfold processVideo
    dsimp only
    rw [h3, h4, h5, mergeChunks_created _ h3]
    simp
  have hh : handleMessage env =
      ⟨[.mergeCall, .mkdirCall, .ffmpegCall env.ffmpegOutput,
        .registerError ("Failed to convert to mpeg-dash, output" ++ env.ffmpegOutput) e,
        .registerError "Failed to process video" e],
       some (mergeChunks env.dir).outputBytes⟩ := by
    unfold handleMessage
    rw [h1]
    dsimp only
    rw [h2]
    simp only [Bool.false_eq_true, if_false]
    rw [hpv]
    rfl
  refine ⟨by rw [hpv], hh, ?_, ?_, ?_, ?_⟩
  · rw [String.data_append]
    exact subOccurs_append_self _ _
  all_goals rw [hh]; simp

/-- C6 amended witness: the concrete failing-transcode run. -/
theorem ffmpeg_failure_behavior_witness :
    (processVideo envFF).result = some "exit status 1" ∧
    Ev.ack ∉ (handleMessage envFF).trace ∧
    (handleMessage envFF).mergedFile = some [1] := by
  obtain ⟨hr, hh, hs, hack, hmark, hpub⟩ :=
    ffmpeg_failure_behavior envFF ⟨7, "/data/7"⟩ "exit status 1" rfl rfl (by decide) rfl rfl
  exact ⟨hr, hack, by rw [hh]; decide⟩

/-- C10: when `MarkProcessed` succeeds, the message is acknowledged strictly
before the confirmation is published; the publish error is assigned and then
dropped: it is not logged, no error record is written, the acknowledgment
stands, and the run ends at the failed publish — the task is acked and marked
processed with no confirmation delivered. -/
theorem publish_error_discarded (env : Env) (t : VideoTask) (e : String)
    (h1 : env.parsedTask = .ok t) (h2 : env.isProcessed = false)
    (h3 : (processVideo env).result = none) (h4 : env.markErr = none)
    (h5 : env.publishErr = some e) :
    handleMessage env =
      ⟨[.mergeCall, .mkdirCall, .ffmpegCall env.ffmpegOutput, .removeCall, .mark, .ack,
        .publish (confirmationMessage t.videoId t.path) false], none⟩ ∧
    (∀ m dt, Ev.registerError m dt ∉ (handleMessage env).trace) ∧
    Ev.ack ∈ (handleMessage env).trace ∧
    Ev.mark ∈ (handleMessage env).trace ∧
    (handleMessage env).trace.getLast? =
      some (.publish (confirmationMessage t.videoId t.path) false) := by
  have hh : handleMessage env =
      ⟨[.mergeCall, .mkdirCall, .ffmpegCall env.ffmpegOutput, .removeCall, .mark, .ack,
        .publish (confirmationMessage t.videoId t.path) false], none⟩ := by
    have h0 := handle_success_eq env t h1 h2 h3 h4
    rw [h5] at h0
    exact h0
  refine ⟨hh, ?_, ?_, ?_, ?_⟩ <;> rw [hh] <;> simp

/-- C10 witness: the publish-failure example run. -/
theorem publish_error_discarded_witness :
    Ev.ack ∈ (handleMessage envPubFail).trace ∧
    (∀ m dt, Ev.registerError m dt ∉ (handleMessage envPubFail).trace) ∧
    (handleMessage envPubFail).trace.getLast? =
      some (.publish (confirmationMessage 42 "/data/42") false) := by
  obtain ⟨hh, hreg, hack, hmark, hlast⟩ :=
    publish_error_discarded envPubFail taskEx "broker down" rfl rfl (by decide) rfl rfl
  exact ⟨hack, hreg, hlast⟩

/-! ### Lemmas about the JSON checker, and claim C9 -/

theorem strScan_decomp_aux : ∀ (n : Nat) (l : List Char), l.length ≤ n →
    ∀ d rest, strScan l = some (d, rest) →
    ∃ content, l = content ++ '"' :: rest ∧
      ((content = d ∧ ∀ c ∈ d, c ≠ '"' ∧ c ≠ '\\') ∨ d.length < content.length) := by
  intro n
  induction n with
  | zero =>
    intro l hl d rest h
    have : l = [] := List.length_eq_zero.mp (Nat.le_zero.mp hl)
    subst this
    simp [strScan] at h
  | succ n ih =>
    intro l hl d rest h
    have step : ∀ (pre rr : List Char) (ch : Char), 2 ≤ pre.length → rr.length ≤ n →
        Option.map (fun p => (ch :: p.1, p.2)) (strScan rr) = some (d, rest) →
        ∃ content, pre ++ rr = content ++ '"' :: rest ∧
          ((content = d ∧ ∀ c ∈ d, c ≠ '"' ∧ c ≠ '\\') ∨ d.length < content.length) := by
      intro pre rr ch hpre hrr hmap
      cases hrec : strScan rr with
      | none => rw [hrec] at hmap; exact Option.noConfusion hmap
      | some p =>
        rw [hrec] at hmap
        obtain ⟨p1, p2⟩ := p
        simp only [Option.map_some', Option.some.injEq, Prod.mk.injEq] at hmap
        obtain ⟨hd1, hr1⟩ := hmap
        subst hd1
        subst hr1
        obtain ⟨content', hC, hdisj⟩ := ih rr hrr p1 p2 hrec
        refine ⟨pre ++ content', ?_, Or.inr ?_⟩
        · rw [hC, List.append_assoc]
        · rcases hdisj with ⟨heq, _⟩ | hlt
          · subst heq
            simp only [List.length_cons, List.length_append]
            omega
          · simp only [List.length_cons, List.length_append]
            omega
    rw [strScan.eq_def] at h
    split at h
    · exact Option.noConfusion h
    · rename_i r
      simp only [Option.some.injEq, Prod.mk.injEq] at h
      obtain ⟨hd, hr⟩ := h
      subst hd; subst hr
      exact ⟨[], rfl, Or.inl ⟨rfl, by simp⟩⟩
    · rename_i h1 h2 h3 h4 r
      split at h
      · rename_i a b cc dd ha hb hc hd4
        dsimp only at h
        split at h
        · rename_i hn
          split at h
          · rename_i rOld g1 g2 g3 g4 r2
            split at h
            · rename_i a2 b2 c2 d2 hga hgb hgc hgd
              try dsimp only at h
              split at h
              · exact step ['\\','u',h1,h2,h3,h4,'\\','u',g1,g2,g3,g4] r2 _ (by simp)
                  (by simp at hl; omega) h
              · exact Option.noConfusion h
            · exact Option.noConfusion h
          · exact Option.noConfusion h
        · rename_i hn
          split at h
          · exact Option.noConfusion h
          · rename_i hm
            exact step ['\\','u',h1,h2,h3,h4] r _ (by simp) (by simp at hl; omega) h
      · exact Option.noConfusion h
    · rename_i e r hexcl
      split at h
      · rename_i dch hesc
        exact step ['\\', e] r _ (by simp) (by simp at hl; omega) h
      · exact Option.noConfusion h
    · rename_i c r hq hp1 hp2
      by_cases hbs : c = '\\'
      · subst hbs
        cases r with
        | nil => simp [strScan] at h
        | cons e r1 => exact (hp2 e r1 rfl rfl).elim
      · cases hrec : strScan r with
        | none => rw [hrec] at h; exact Option.noConfusion h
        | some p =>
          rw [hrec] at h
          obtain ⟨p1, p2⟩ := p
          simp only [Option.map_some', Option.some.injEq, Prod.mk.injEq] at h
          obtain ⟨hd1, hr1⟩ := h
          subst hd1
          subst hr1
          have hlen : r.length ≤ n := by simp at hl; omega
          obtain ⟨content', hC, hdisj⟩ := ih r hlen p1 p2 hrec
          rcases hdisj with ⟨heq, hfree⟩ | hlt
          · subst heq
            refine ⟨c :: content', by rw [hC]; rfl, Or.inl ⟨rfl, ?_⟩⟩
            intro c' hmem
            rcases List.mem_cons.mp hmem with rfl | hm2
            · exact ⟨fun hh => hq hh, hbs⟩
            · exact hfree c' hm2
          · refine ⟨c :: content', by rw [hC]; rfl, Or.inr ?_⟩
            simp only [List.length_cons]
            omega

theorem strScan_decomp (l d rest : List Char) (h : strScan l = some (d, rest)) :
    ∃ content, l = content ++ '"' :: rest ∧
      ((content = d ∧ ∀ c ∈ d, c ≠ '"' ∧ c ≠ '\\') ∨ d.length < content.length) :=
  strScan_decomp_aux l.length l le_rfl d rest h

theorem digitChar_props : ∀ k, k < 10 →
    (Char.ofNat ('0'.toNat + k)).isDigit = true ∧
    Char.ofNat ('0'.toNat + k) ≠ '-' ∧
    Char.ofNat ('0'.toNat + k) ≠ '"' ∧
    ¬(Char.ofNat ('0'.toNat + k) = ' ' ∨ Char.ofNat ('0'.toNat + k) = '\t' ∨
      Char.ofNat ('0'.toNat + k) = '\n' ∨ Char.ofNat ('0'.toNat + k) = '\r') := by decide

theorem natDigitsRevAux_mem : ∀ (fuel m : Nat), ∀ c ∈ natDigitsRevAux fuel m,
    ∃ k, k < 10 ∧ c = Char.ofNat ('0'.toNat + k) := by
  intro fuel
  induction fuel with
  | zero => intro m c hc; simp [natDigitsRevAux] at hc
  | succ fuel ih =>
    intro m c hc
    unfold natDigitsRevAux at hc
    by_cases hm : m < 10
    · rw [if_pos hm] at hc
      rcases List.mem_singleton.mp hc with rfl
      exact ⟨m, hm, rfl⟩
    · rw [if_neg hm] at hc
      rcases List.mem_cons.mp hc with rfl | hc2
      · exact ⟨m % 10, Nat.mod_lt _ (by omega), rfl⟩
      · exact ih (m / 10) c hc2

theorem natDigitsRevAux_ne_nil (fuel m : Nat) : natDigitsRevAux (fuel + 1) m ≠ [] := by
  unfold natDigitsRevAux
  by_cases hm : m < 10
  · rw [if_pos hm]; simp
  · rw [if_neg hm]; simp

theorem natToChars_ne_nil (m : Nat) : natToChars m ≠ [] := by
  unfold natToChars natDigitsRev
  intro hh
  exact natDigitsRevAux_ne_nil m m (by simpa using hh)

theorem natToChars_mem (m : Nat) : ∀ c ∈ natToChars m, ∃ k, k < 10 ∧ c = Char.ofNat ('0'.toNat + k) := by
  intro c hc
  exact natDigitsRevAux_mem (m + 1) m c (List.mem_reverse.mp hc)

theorem intToChars_cases (i : Int) :
    (∃ t, intToChars i = '-' :: t ∧ t ≠ [] ∧
      ∀ x ∈ t, ∃ k, k < 10 ∧ x = Char.ofNat ('0'.toNat + k)) ∨
    (intToChars i ≠ [] ∧
      ∀ x ∈ intToChars i, ∃ k, k < 10 ∧ x = Char.ofNat ('0'.toNat + k)) := by
  unfold intToChars
  by_cases hi : i < 0
  · rw [if_pos hi]
    exact Or.inl ⟨natToChars i.natAbs, rfl, natToChars_ne_nil _, natToChars_mem _⟩
  · rw [if_neg hi]
    exact Or.inr ⟨natToChars_ne_nil _, natToChars_mem _⟩

theorem takeWhile_all_append (p : Char → Bool) : ∀ (l r : List Char),
    (∀ c ∈ l, p c = true) → (∀ c r', r = c :: r' → p c = false) →
    (l ++ r).takeWhile p = l ∧ (l ++ r).dropWhile p = r := by
  intro l
  induction l with
  | nil =>
    intro r _ hr
    cases r with
    | nil => exact ⟨rfl, rfl⟩
    | cons c r' =>
      simp only [List.nil_append, List.takeWhile_cons, List.dropWhile_cons, hr c r' rfl]
      exact ⟨rfl, rfl⟩
  | cons a l' ih =>
    intro r hl hr
    obtain ⟨ht, hd⟩ := ih r (fun c hc => hl c (List.mem_cons_of_mem _ hc)) hr
    have hpa : p a = true := hl a (List.mem_cons_self ..)
    simp [List.takeWhile_cons, List.dropWhile_cons, hpa, ht, hd]

theorem parseNum_intToChars (i : Int) (rest : List Char)
    (hrest : ∀ c r', rest = c :: r' → c.isDigit = false) :
    ∃ v, parseNum (intToChars i ++ rest) = some (v, rest) := by
  rcases intToChars_cases i with ⟨t, hit, htne, htmem⟩ | ⟨hne, hmem⟩
  · rw [hit]
    obtain ⟨ht, hd⟩ := takeWhile_all_append Char.isDigit t rest
      (fun c hc => by obtain ⟨k, hk, rfl⟩ := htmem c hc; exact (digitChar_props k hk).1) hrest
    refine ⟨-(digitsVal t : Int), ?_⟩
    show parseNum ('-' :: (t ++ rest)) = _
    rw [parseNum.eq_def]
    split
    · rename_i r heq
      injection heq with h1 h2
      subst h2
      rw [ht, hd, if_neg (by simpa using htne)]
    · rename_i hnm
      exact ((hnm (t ++ rest) rfl).elim)
  · obtain ⟨c0, t0, hct⟩ : ∃ c0 t0, intToChars i = c0 :: t0 := by
      cases hic : intToChars i with
      | nil => exact absurd hic hne
      | cons a b => exact ⟨a, b, rfl⟩
    obtain ⟨ht, hd⟩ := takeWhile_all_append Char.isDigit (intToChars i) rest
      (fun c hc => by obtain ⟨k, hk, rfl⟩ := hmem c hc; exact (digitChar_props k hk).1) hrest
    refine ⟨(digitsVal (intToChars i) : Int), ?_⟩
    rw [parseNum.eq_def]
    split
    · rename_i r heq
      rw [hct] at heq
      injection heq with h1 h2
      obtain ⟨k, hk, hkc⟩ := hmem c0 (by rw [hct]; exact List.mem_cons_self ..)
      rw [hkc] at h1
      exact ((digitChar_props k hk).2.1 h1).elim
    · dsimp only
      rw [ht, hd, if_neg (by simpa using hne)]

theorem skipWs_lbrace (R : List Char) : skipWs ('\x7b' :: R) = '\x7b' :: R := rfl

theorem skipWs_comma (R : List Char) : skipWs (',' :: R) = ',' :: R := rfl

theorem skipWs_colon (R : List Char) : skipWs (':' :: R) = ':' :: R := rfl

theorem skipWs_space (R : List Char) : skipWs (' ' :: R) = skipWs R := rfl

theorem skipWs_intToChars (i : Int) (X : List Char) :
    skipWs (intToChars i ++ X) = intToChars i ++ X := by
  rcases intToChars_cases i with ⟨t, hit, _, _⟩ | ⟨hne, hmem⟩
  · rw [hit]
    show skipWs ('-' :: (t ++ X)) = _
    unfold skipWs
    rw [if_neg (by decide)]
    rfl
  · obtain ⟨c0, t0, hct⟩ : ∃ c0 t0, intToChars i = c0 :: t0 := by
      cases hic : intToChars i with
      | nil => exact absurd hic hne
      | cons a b => exact ⟨a, b, rfl⟩
    rw [hct]
    show skipWs (c0 :: (t0 ++ X)) = _
    unfold skipWs
    obtain ⟨k, hk, hkc⟩ := hmem c0 (by rw [hct]; exact List.mem_cons_self ..)
    rw [if_neg (by rw [hkc]; exact (digitChar_props k hk).2.2.2)]
    rfl

theorem parseVal_intToChars (i : Int) (X : List Char)
    (hX : ∀ c r', X = c :: r' → c.isDigit = false) :
    ∃ v : Int, parseVal (skipWs (intToChars i ++ X)) = some (JVal.num v, X) := by
  obtain ⟨v, hv⟩ := parseNum_intToChars i X hX
  refine ⟨v, ?_⟩
  rw [skipWs_intToChars]
  rw [parseVal.eq_def]
  split
  · rename_i r heq
    rcases intToChars_cases i with ⟨t, hit, _, _⟩ | ⟨hne, hmem⟩
    · rw [hit] at heq
      injection heq with he _
      exact absurd he (by decide)
    · obtain ⟨c0, t0, hct⟩ : ∃ c0 t0, intToChars i = c0 :: t0 := by
        cases hic : intToChars i with
        | nil => exact absurd hic hne
        | cons a b => exact ⟨a, b, rfl⟩
      rw [hct] at heq
      injection heq with he _
      obtain ⟨k, hk, hkc⟩ := hmem c0 (by rw [hct]; exact List.mem_cons_self ..)
      rw [hkc] at he
      exact ((digitChar_props k hk).2.2.1 he).elim
  · rw [hv]
    rfl

theorem parseMember_video_id (id : Int) (X : List Char) :
    ∃ v : Int, parseMember ('"' :: 'v' :: 'i' :: 'd' :: 'e' :: 'o' :: '_' :: 'i' :: 'd' :: '"' :: ':' :: ' ' ::
        (intToChars id ++ (',' :: X))) =
      some (("video_id".data, JVal.num v), ',' :: X) := by
  obtain ⟨v, hpv⟩ := parseVal_intToChars id (',' :: X)
    (by intro c r' hcr; injection hcr with h1 _; rw [← h1]; decide)
  refine ⟨v, ?_⟩
  unfold parseMember
  have hq : parseStringLit (skipWs ('"' :: 'v' :: 'i' :: 'd' :: 'e' :: 'o' :: '_' :: 'i' :: 'd' :: '"' :: ':' :: ' ' ::
      (intToChars id ++ (',' :: X)))) =
      some ("video_id".data, ':' :: ' ' :: (intToChars id ++ (',' :: X))) := rfl
  rw [hq]
  dsimp only
  rw [skipWs_colon]
  split
  · rename_i r2 heq
    injection heq with _ h2
    subst h2
    rw [skipWs_space, hpv]
  · rename_i hx
    exact (hx (' ' :: (intToChars id ++ (',' :: X))) rfl).elim

theorem parseMember_path (P S : List Char) :
    parseMember (' ' :: '"' :: 'p' :: 'a' :: 't' :: 'h' :: '"' :: ':' :: ' ' :: '"' :: (P ++ S)) =
      (strScan (P ++ S)).map (fun dp => (("path".data, JVal.str dp.1), dp.2)) := by
  unfold parseMember
  have hq : parseStringLit (skipWs (' ' :: '"' :: 'p' :: 'a' :: 't' :: 'h' :: '"' :: ':' :: ' ' :: '"' :: (P ++ S))) =
      some ("path".data, ':' :: ' ' :: '"' :: (P ++ S)) := rfl
  rw [hq]
  dsimp only
  rw [skipWs_colon]
  split
  · rename_i r2 heq
    injection heq with _ h2
    subst h2
    rw [skipWs_space]
    have hv : parseVal (skipWs ('"' :: (P ++ S))) = (strScan (P ++ S)).map (fun p => (JVal.str p.1, p.2)) := rfl
    rw [hv]
    cases hsc : strScan (P ++ S) with
    | none => rfl
    | some p => rfl
  · rename_i hx
    exact (hx (' ' :: '"' :: (P ++ S)) rfl).elim

theorem confirmationMessage_data (id : Int) (path : String) :
    (confirmationMessage id path).data =
      '\x7b' :: '"' :: 'v' :: 'i' :: 'd' :: 'e' :: 'o' :: '_' :: 'i' :: 'd' :: '"' :: ':' :: ' ' ::
        (intToChars id ++ (',' :: (' ' :: '"' :: 'p' :: 'a' :: 't' :: 'h' :: '"' :: ':' :: ' ' :: '"' ::
          (path.data ++ ['"', '\x7d'])))) := by
  unfold confirmationMessage
  have hA : ("\x7b\"video_id\": " : String).data =
      ['\x7b','"','v','i','d','e','o','_','i','d','"',':',' '] := rfl
  have hC : (", \"path\": \"" : String).data = [',',' ','"','p','a','t','h','"',':',' ','"'] := rfl
  have hD : ("\"\x7d" : String).data = ['"','\x7d'] := rfl
  rw [String.data_append, String.data_append, String.data_append, String.data_append,
    hA, hC, hD]
  simp [List.append_assoc]

theorem parseConfirmation_inv (id : Int) (path : String) (v0 : Int) (p' : String)
    (hp : parseConfirmation (confirmationMessage id path) = some (v0, p')) :
    ∃ dp r3, strScan (path.data ++ ['"', '\x7d']) = some (dp, r3) ∧
      p' = String.mk dp ∧ r3 ≠ [] := by
  unfold parseConfirmation at hp
  rw [confirmationMessage_data, skipWs_lbrace] at hp
  obtain ⟨v, hpm1⟩ := parseMember_video_id id
    (' ' :: '"' :: 'p' :: 'a' :: 't' :: 'h' :: '"' :: ':' :: ' ' :: '"' :: (path.data ++ ['"', '\x7d']))
  split at hp
  · rename_i r heq
    injection heq with _ h2
    subst h2
    rw [hpm1] at hp
    dsimp only at hp
    rw [skipWs_comma] at hp
    split at hp
    · rename_i r2 heq2
      injection heq2 with _ h3
      subst h3
      rw [parseMember_path] at hp
      cases hsc : strScan (path.data ++ ['"', '\x7d']) with
      | none => rw [hsc] at hp; simp at hp
      | some p =>
        rw [hsc] at hp
        obtain ⟨dp, r3⟩ := p
        simp only [Option.map_some'] at hp
        try dsimp only at hp
        refine ⟨dp, r3, rfl, ?_, ?_⟩
        · split at hp
          · rename_i r4 heq3
            split at hp
            · have hmt : matchTarget ("video_id".data, JVal.num v) ("path".data, JVal.str dp) =
                  some (v, String.mk dp) := rfl
              rw [hmt] at hp
              injection hp with h4
              injection h4 with _ h5
              exact h5.symm
            · exact Option.noConfusion hp
          · exact Option.noConfusion hp
        · split at hp
          · rename_i r4 heq3
            intro h0
            rw [h0] at heq3
            simp [skipWs] at heq3
          · exact Option.noConfusion hp
    · rename_i hx
      exact Option.noConfusion hp
  · rename_i hx
    exact Option.noConfusion hp

theorem confirmation_path_not_reencoded (id : Int) (path : String)
    (hbad : '"' ∈ path.data ∨ '\\' ∈ path.data) :
    ∀ v0 p', parseConfirmation (confirmationMessage id path) = some (v0, p') → p' ≠ path := by
  intro v0 p' hp hpp
  obtain ⟨dp, r3, hsc, hps, hr3⟩ := parseConfirmation_inv id path v0 p' hp
  have hdp : dp = path.data := by
    rw [hpp] at hps
    exact (congrArg String.data hps).symm
  subst hdp
  obtain ⟨content, hC, hdisj⟩ := strScan_decomp _ _ _ hsc
  rcases hdisj with ⟨hce, hfree⟩ | hlt
  · rcases hbad with hq | hbsl
    · exact ((hfree '"' hq).1 rfl).elim
    · exact ((hfree '\\' hbsl).2 rfl).elim
  · have h1 := congrArg List.length hC
    simp only [List.length_append, List.length_cons, List.length_nil] at h1
    have hr0 : r3.length = 0 := by omega
    exact hr3 (List.length_eq_zero.mp hr0)

/-- C9: in a successful run the published confirmation body is exactly the
interpolation of `video_id` and `path` into `{"video_id": %d, "path": "%s"}`
with the path inserted verbatim, no JSON escaping applied; consequently, for
every path containing a double quote or a backslash the body is not a valid
JSON encoding of the object `{video_id, path}`: it either fails to parse or
parses to an object whose path field differs from the original path. -/
theorem confirmation_body_exact (env : Env) (t : VideoTask)
    (h1 : env.parsedTask = .ok t) (h2 : env.isProcessed = false)
    (h3 : (processVideo env).result = none) (h4 : env.markErr = none) :
    Ev.publish (confirmationMessage t.videoId t.path) env.publishErr.isNone
      ∈ (handleMessage env).trace ∧
    (∀ b ok, Ev.publish b ok ∈ (handleMessage env).trace →
      b = confirmationMessage t.videoId t.path) ∧
    (∀ (id : Int) (path : String), '"' ∈ path.data ∨ '\\' ∈ path.data →
      (∀ v0 p', parseConfirmation (confirmationMessage id path) = some (v0, p') → p' ≠ path) ∧
      parseConfirmation (confirmationMessage id path) ≠ some (id, path)) := by
  have hh := handle_success_eq env t h1 h2 h3 h4
  refine ⟨?_, ?_, ?_⟩
  · rw [hh]
    simp
  · rw [hh]
    intro b ok hm
    simp at hm
    exact hm.1
  · intro id path hbad
    exact ⟨confirmation_path_not_reencoded id path hbad,
      fun hp => confirmation_path_not_reencoded id path hbad id path hp rfl⟩

/-- C9 witness: the successful example run whose path contains a double
quote; its emitted body does not parse back to the original pair. -/
theorem confirmation_body_exact_witness :
    Ev.publish (confirmationMessage 9 "/da\"ta") true ∈ (handleMessage envQuote).trace ∧
    parseConfirmation (confirmationMessage 9 "/da\"ta") ≠ some (9, "/da\"ta") := by
  obtain ⟨hmem, _, hjson⟩ := confirmation_body_exact envQuote ⟨9, "/da\"ta"⟩ rfl rfl (by decide) rfl
  exact ⟨hmem, (hjson 9 "/da\"ta" (by decide)).2⟩

end Converter
